import Mathlib

/-!
Verification of the task-orchestration core of the proposal-generation
system: the dependency-closure expansion, level planning, pipeline
dispatch, routing-driven task injection, rate normalization and the
final compilation (sink) task.

The Python code is shallowly embedded: dictionaries become association
lists, Python sets of task names become membership on lists, Python
floats become rationals (every division relevant here — by 1, 8, 40 and
160 of small decimal inputs — is exact in binary floating point, so the
rational model agrees with the float computation on all inputs at
issue), and functions that raise become `Option`-valued functions.
-/

/-! List preliminaries used by the termination argument of the
breadth-first dependency expansion `bfsLoop` below. -/

theorem two_filter_length_le {α : Type} (l : List α) (p q : α → Bool)
    (h : ∀ x ∈ l, ¬(p x = true ∧ q x = true)) :
    (l.filter p).length + (l.filter q).length ≤ l.length := by
  induction l with
  | nil => simp
  | cons x xs ih =>
    have hx := h x (List.mem_cons_self x xs)
    have ihh := ih (fun y hy => h y (List.mem_cons_of_mem x hy))
    by_cases hp : p x = true
    · have hq : q x = false := by
        cases hqv : q x with
        | false => rfl
        | true => exact absurd ⟨hp, hqv⟩ hx
      simp only [List.filter_cons, hp, hq, if_true, Bool.false_eq_true, if_false,
        List.length_cons]
      omega
    · have hp' : p x = false := by
        cases hpv : p x with
        | false => rfl
        | true => exact absurd hpv hp
      by_cases hq : q x = true
      · simp only [List.filter_cons, hp', hq, Bool.false_eq_true, if_false, if_true,
          List.length_cons]
        omega
      · have hq' : q x = false := by
          cases hqv : q x with
          | false => rfl
          | true => exact absurd hqv hq
        simp only [List.filter_cons, hp', hq', Bool.false_eq_true, if_false,
          List.length_cons]
        omega

theorem bfs_step_measure (table : List (String × List String))
    (affected : List String) (current : String) :
    2 * (table.filter (fun p => !(decide (p.1 ∈ affected ++ (table.filter (fun p => decide (current ∈ p.2) && !(decide (p.1 ∈ affected)))).map Prod.fst)))).length
        + ((table.filter (fun p => decide (current ∈ p.2) && !(decide (p.1 ∈ affected)))).map Prod.fst).length
      < 2 * (table.filter (fun p => !(decide (p.1 ∈ affected)))).length + 1 := by
  have hfilter :
      table.filter (fun p => !(decide (p.1 ∈ affected ++ (table.filter (fun p => decide (current ∈ p.2) && !(decide (p.1 ∈ affected)))).map Prod.fst)))
        = (table.filter (fun p => !(decide (p.1 ∈ affected)))).filter
            (fun p => !(decide (p.1 ∈ (table.filter (fun p => decide (current ∈ p.2) && !(decide (p.1 ∈ affected)))).map Prod.fst))) := by
    rw [List.filter_filter]
    apply List.filter_congr
    intro p _
    by_cases h1 : p.1 ∈ affected <;>
      by_cases h2 : p.1 ∈ (table.filter (fun p => decide (current ∈ p.2) && !(decide (p.1 ∈ affected)))).map Prod.fst <;>
      simp [h1, h2]
  have hdep :
      table.filter (fun p => decide (current ∈ p.2) && !(decide (p.1 ∈ affected)))
        = (table.filter (fun p => !(decide (p.1 ∈ affected)))).filter
            (fun p => decide (current ∈ p.2)) := by
    rw [List.filter_filter]
  have hdisj : ∀ x ∈ table.filter (fun p => !(decide (p.1 ∈ affected))),
      ¬((!(decide (x.1 ∈ (table.filter (fun p => decide (current ∈ p.2) && !(decide (p.1 ∈ affected)))).map Prod.fst))) = true
        ∧ (decide (current ∈ x.2)) = true) := by
    intro x hxmem hcon
    have h1 := hcon.1
    have h2 := hcon.2
    simp only [List.mem_filter] at hxmem
    simp only [Bool.not_eq_true', decide_eq_false_iff_not] at h1
    apply h1
    simp only [List.mem_map]
    refine ⟨x, ?_, rfl⟩
    simp only [List.mem_filter]
    refine ⟨hxmem.1, ?_⟩
    rw [h2, hxmem.2]
    rfl
  have hle := two_filter_length_le _ _ _ hdisj
  rw [← hfilter, ← hdep] at hle
  have hmaplen :
      ((table.filter (fun p => decide (current ∈ p.2) && !(decide (p.1 ∈ affected)))).map Prod.fst).length
        = (table.filter (fun p => decide (current ∈ p.2) && !(decide (p.1 ∈ affected)))).length :=
    List.length_map _ _
  omega

/-! Shared proposal state model. The Python ProposalState is a dictionary
from string keys to section content (strings) or, for the compiled
result, a nested dictionary; `{**state, k: v, ...}` merges are modelled
by the in-place/append update `setKey`. -/

/-- Values stored in the shared proposal state: section content strings
and, for the compiled proposal, a nested dictionary. -/
inductive Value where
  | str (s : String)
  | dict (entries : List (String × Value))

/-- The shared proposal state: a string-keyed dictionary, modelled as an
association list with distinct keys (Python dicts cannot repeat a key;
the operations below use first-match lookup so they are well behaved
even without that invariant). -/
abbrev ProposalState := List (String × Value)

/-- Model of Python str.strip with no argument: remove leading and
trailing whitespace characters. -/
def pyStrip (s : String) : String :=
  String.mk (((s.data.dropWhile Char.isWhitespace).reverse.dropWhile Char.isWhitespace).reverse)

/-- Model of Python str.lower: lowercase every character. -/
def pyLower (s : String) : String :=
  String.mk (s.data.map Char.toLower)

/-- Dictionary lookup: Python `key in state` / `state[key]` as an
optional value. -/
def getValue? (st : ProposalState) (k : String) : Option Value :=
  (st.find? (fun p => p.1 == k)).map Prod.snd

/-- Dictionary lookup with default: Python `state.get(key, default)`. -/
def getD (st : ProposalState) (k : String) (d : Value) : Value :=
  (getValue? st k).getD d

/-- Dictionary update: the effect of `{**state, k: v}` on key `k` —
replace the value of an existing key in place, or append a new binding
at the end. -/
def setKey (st : ProposalState) (k : String) (v : Value) : ProposalState :=
  if st.any (fun p => p.1 == k) then
    st.map (fun p => if p.1 == k then (k, v) else p)
  else st ++ [(k, v)]

/-! Breadth-first forward dependency closure, shared by
`EditPipeline._expand_with_dependencies` and
`MasterAgent._expand_with_dependencies`: starting from the requested
agents, repeatedly add every agent whose dependency list contains an
already-included agent, until the work queue empties. `table` maps an
agent name to its dependency list. -/

def bfsLoop (table : List (String × List String)) :
    List String → List String → List String
  | affected, [] => affected
  | affected, current :: rest =>
    bfsLoop table
      (affected ++ (table.filter (fun p => decide (current ∈ p.2) && !(decide (p.1 ∈ affected)))).map Prod.fst)
      (rest ++ (table.filter (fun p => decide (current ∈ p.2) && !(decide (p.1 ∈ affected)))).map Prod.fst)
termination_by affected queue =>
  2 * (table.filter (fun p => !(decide (p.1 ∈ affected)))).length + queue.length
decreasing_by
  simp only [List.length_append, List.length_cons]
  have h := bfs_step_measure table affected current
  omega

namespace EditPipeline

/-- Canonical execution order of agents
(src/agents/pipeline/edit_pipeline.py, `agent_order` in
`_expand_with_dependencies`). -/
def agent_order : List String :=
  ["title", "scope_refinement", "business_analyst", "technical_architect",
   "project_manager", "resource_allocation"]

/-- EditPipeline.get_agent_dependencies: agent name to the list of
agents it depends on. -/
def get_agent_dependencies : List (String × List String) :=
  [("scope_refinement", []),
   ("business_analyst", ["scope_refinement"]),
   ("technical_architect", ["scope_refinement"]),
   ("project_manager", ["scope_refinement", "business_analyst", "technical_architect"]),
   ("resource_allocation", ["scope_refinement", "business_analyst", "technical_architect", "project_manager"])]

/-- EditPipeline._expand_with_dependencies. A single requested agent is
returned unchanged; if the proposal has not been generated yet the
requested agents are merely put in canonical order (falling back to the
raw request when none is a known agent); otherwise the breadth-first
forward closure runs and the result is returned in canonical order.
The dependency table is a parameter (the source reads it through
`self.get_agent_dependencies()`). -/
def expand_with_dependencies (dependencies : List (String × List String))
    (is_proposal_generated : Bool) (primary_agents : List String) : List String :=
  if primary_agents.length == 1 then primary_agents
  else if !is_proposal_generated then
    let ordered_agents := agent_order.filter (fun a => decide (a ∈ primary_agents))
    if ordered_agents.isEmpty then primary_agents else ordered_agents
  else
    let all_affected := bfsLoop dependencies primary_agents primary_agents
    agent_order.filter (fun a => decide (a ∈ all_affected))

/-- The recursive level computation of
EditPipeline._group_by_dependency_level: an agent with an empty (or
missing) dependency list has level 0; otherwise its level is one more
than the maximum level of its dependencies that lie inside the executed
sequence (-1, hence level 0, when none does). The fuel argument only
realizes the termination of Python's recursion: the concrete dependency
table is acyclic with chains of length at most five, so any fuel of at
least 8 computes the same value as the unbounded recursion. -/
def get_level (agent_sequence : List String) : Nat → String → Int
  | 0, _ => 0
  | fuel + 1, agent_name =>
    match (get_agent_dependencies.find? (fun p => p.1 == agent_name)).map Prod.snd with
    | none => 0
    | some [] => 0
    | some deps =>
      ((deps.filter (fun d => decide (d ∈ agent_sequence))).map
        (get_level agent_sequence fuel)).foldl max (-1) + 1

/-- EditPipeline._group_by_dependency_level: when the proposal is not
generated yet and an initial idea is available, all agents form a single
group; otherwise agents are grouped by their dependency level, the
groups listed in ascending level order (Python: a dict keyed by level,
iterated over `sorted(groups.keys())`). -/
def group_by_dependency_level (is_proposal_generated : Bool) (has_initial_idea : Bool)
    (agent_sequence : List String) : List (List String) :=
  if !is_proposal_generated && has_initial_idea then [agent_sequence]
  else
    (List.insertionSort (· ≤ ·) ((agent_sequence.map (get_level agent_sequence 8)).eraseDups)).map
      (fun l => agent_sequence.filter (fun a => get_level agent_sequence 8 a == l))

/-- EditPipeline.validate_prerequisites: fails exactly when no agents to
update were specified; the state is not consulted. -/
def validate_prerequisites (agents_to_update : List String) (_state : ProposalState) : Bool :=
  !agents_to_update.isEmpty

/-- The dispatch structure of EditPipeline.execute: after validation it
submits the whole expanded agent sequence to one thread pool — a single
concurrent batch — and `_group_by_dependency_level` is never called.
`none` models the ValueError raised when validation fails. -/
def execute_batches (is_proposal_generated : Bool) (agents_to_update : List String)
    (state : ProposalState) : Option (List (List String)) :=
  if !(validate_prerequisites agents_to_update state) then none
  else some [expand_with_dependencies get_agent_dependencies is_proposal_generated agents_to_update]

end EditPipeline

namespace MasterAgent

/-- The dependency table hardcoded inside
MasterAgent._expand_with_dependencies (note: unlike the edit pipeline's
table, here technical_architect also depends on business_analyst). -/
def agent_dependencies : List (String × List String) :=
  [("scope_refinement", []),
   ("business_analyst", ["scope_refinement"]),
   ("technical_architect", ["scope_refinement", "business_analyst"]),
   ("project_manager", ["scope_refinement", "business_analyst", "technical_architect"]),
   ("resource_allocation", ["scope_refinement", "business_analyst", "technical_architect", "project_manager"])]

/-- The execution order used by MasterAgent._expand_with_dependencies
(no title entry). -/
def agent_order : List String :=
  ["scope_refinement", "business_analyst", "technical_architect",
   "project_manager", "resource_allocation"]

/-- MasterAgent._expand_with_dependencies: unconditional breadth-first
forward closure of the requested agents, returned in execution order. -/
def expand_with_dependencies (primary_agents : List String) : List String :=
  agent_order.filter (fun a => decide (a ∈ bfsLoop agent_dependencies primary_agents primary_agents))

/-- MasterAgent.get_sub_agents_to_rerun: an empty request stays empty; a
full generation request always expands; an explicit single-agent edit
request is returned unchanged; every other case expands. The session
argument of the source is never consulted. -/
def get_sub_agents_to_rerun (action : String) (agents_to_rerun : List String) : List String :=
  if agents_to_rerun.isEmpty then []
  else if action == "generate_proposal" then expand_with_dependencies agents_to_rerun
  else if agents_to_rerun.length == 1 && action == "edit" then agents_to_rerun
  else expand_with_dependencies agents_to_rerun

end MasterAgent

namespace MasterAgent

/-- An extracted rate as it arrives from the routing classifier: either
a `{value, unit}` pair or a bare number (already hourly). Values are
rationals; see the module comment on the float model. -/
inductive RateInfo where
  | withUnit (value : ℚ) (unit : String)
  | bare (value : ℚ)

/-- The conversion table (hours per unit) of
MasterAgent.execute_pipeline: singular and plural forms of hour, day,
week and month. -/
def conversion_factors : List (String × ℚ) :=
  [("hour", 1), ("hours", 1),
   ("day", 8), ("days", 8),
   ("week", 40), ("weeks", 40),
   ("month", 160), ("months", 160)]

/-- Rate normalization from MasterAgent.execute_pipeline: a
`{value, unit}` rate has its unit lowercased and stripped, then is
divided by the table factor when the unit is known and kept as-is
otherwise; a bare numeric rate is kept as-is (assumed hourly). -/
def convert_rate : RateInfo → ℚ
  | RateInfo.withUnit value unit =>
    match (conversion_factors.find? (fun p => p.1 == pyStrip (pyLower unit))).map Prod.snd with
    | some factor => value / factor
    | none => value
  | RateInfo.bare value => value

/-- Modelled from the spec (for comparison with `convert_rate` only):
the claim's conversion rule with the literal four-entry table
`{hour: 1, day: 8, week: 40, month: 160}`, a unit not in that table
keeping the value unchanged. -/
def spec_convert_rate : RateInfo → ℚ
  | RateInfo.withUnit value unit =>
    match ([("hour", (1 : ℚ)), ("day", 8), ("week", 40), ("month", 160)].find?
        (fun p => p.1 == unit)).map Prod.snd with
    | some factor => value / factor
    | none => value
  | RateInfo.bare value => value

/-- The two routing-decision fields read and written by the constraint
injection block of MasterAgent.execute_pipeline. -/
structure RoutingDecision where
  action : String
  agents_to_rerun : List String

/-- The extracted settings of a routing decision; `none` models a key
absent from the dictionary. -/
structure ExtractedSettings where
  rates : Option (List (String × RateInfo))
  budget : Option String
  timeline : Option String

/-- Python truthiness of `extracted_settings["rates"]` guarded by key
presence: `"rates" in extracted_settings and extracted_settings["rates"]`. -/
def hasRates (e : ExtractedSettings) : Bool :=
  match e.rates with
  | some r => !r.isEmpty
  | none => false

/-- Python truthiness of `extracted_settings["budget"]` guarded by key
presence. -/
def hasBudget (e : ExtractedSettings) : Bool :=
  match e.budget with
  | some b => !(b == "")
  | none => false

/-- Python truthiness of `extracted_settings["timeline"]` guarded by key
presence. -/
def hasTimeline (e : ExtractedSettings) : Bool :=
  match e.timeline with
  | some t => !(t == "")
  | none => false

/-- Python truthiness of the `extracted_settings` dictionary itself:
it is non-empty when any of its keys is present. -/
def nonEmptyDict (e : ExtractedSettings) : Bool :=
  e.rates.isSome || e.budget.isSome || e.timeline.isSome

/-- The Python pattern `if x not in agents: agents.append(x)`. -/
def append_if_missing (agents : List String) (agent : String) : List String :=
  if !(decide (agent ∈ agents)) then agents ++ [agent] else agents

/-- The constraint-driven task injection of MasterAgent.execute_pipeline
(the two CRITICAL blocks guarding rates and budget/timeline): when rates
are present and resource_allocation is absent from the task list it is
appended and the action becomes edit; when budget or timeline is
present, project_manager is appended if absent, resource_allocation is
appended if absent for budget, and — the task list being necessarily
non-empty at that point — the action becomes edit. Everything is guarded
by the truthiness of the extracted-settings dictionary. -/
def inject_constraint_tasks (e : ExtractedSettings) (d : RoutingDecision) : RoutingDecision :=
  if nonEmptyDict e then
    let afterRates :=
      if hasRates e && !(decide ("resource_allocation" ∈ d.agents_to_rerun)) then
        RoutingDecision.mk "edit" (d.agents_to_rerun ++ ["resource_allocation"])
      else d
    if hasBudget e || hasTimeline e then
      let ar2 := append_if_missing afterRates.agents_to_rerun "project_manager"
      let ar3 := if hasBudget e then append_if_missing ar2 "resource_allocation" else ar2
      if !ar3.isEmpty then RoutingDecision.mk "edit" ar3 else afterRates
    else afterRates
  else d

end MasterAgent

namespace BasePipeline

/-- BasePipeline.validate_prerequisites: the base implementation accepts
every state unconditionally. -/
def validate_prerequisites (_state : ProposalState) : Bool :=
  true

end BasePipeline

namespace FullProposalPipeline

/-- FullProposalPipeline.get_agent_sequence. -/
def get_agent_sequence : List String :=
  ["title", "scope_refinement", "business_analyst", "technical_architect",
   "project_manager", "resource_allocation", "final_compilation"]

/-- FullProposalPipeline.get_parallel_groups: the static level plan —
title alone, then the five content agents, then final compilation. -/
def get_parallel_groups : List (List String) :=
  [["title"],
   ["scope_refinement", "business_analyst", "technical_architect",
    "project_manager", "resource_allocation"],
   ["final_compilation"]]

/-- FullProposalPipeline does not override validate_prerequisites, so it
inherits the base implementation, which accepts every state — the
"Initial idea is required" ValueError in FullProposalPipeline.execute is
unreachable. -/
def validate_prerequisites (state : ProposalState) : Bool :=
  BasePipeline.validate_prerequisites state

/-- The agent sequence after the enabled-agents filter of
FullProposalPipeline.execute: a truthy `enabled_agents` entry in the
state restricts the sequence to its members (`none` models an absent
key, `some []` a present-but-empty, hence falsy, list). -/
def filtered_sequence (enabled_agents : Option (List String)) : List String :=
  match enabled_agents with
  | some enabled =>
    if enabled.isEmpty then get_agent_sequence
    else get_agent_sequence.filter (fun a => decide (a ∈ enabled))
  | none => get_agent_sequence

/-- The group structure executed by FullProposalPipeline.execute: each
static parallel group is filtered to the agents of the (possibly
enabled-filtered) sequence and empty groups are dropped; the groups are
then run in order, each as one concurrent batch. -/
def execute_groups (enabled_agents : Option (List String)) : List (List String) :=
  (get_parallel_groups.map
    (fun g => g.filter (fun a => decide (a ∈ filtered_sequence enabled_agents)))).filter
    (fun g => !g.isEmpty)

end FullProposalPipeline

namespace FinalCompilation

/-- The required upstream output keys of final_compilation_agent and
their human-readable names. -/
def required_components : List (String × String) :=
  [("refined_scope", "refined scope"),
   ("business_analysis", "business analysis"),
   ("technical_spec", "technical specification"),
   ("project_plan", "project plan"),
   ("resource_plan", "resource plan")]

/-- Python falsiness-or-blankness test
`not component or str(component).strip() == ""` applied to a state
value: an empty or whitespace-only string, or an empty dictionary
(a non-empty dictionary prints as a non-blank string). -/
def isBlank : Value → Bool
  | Value.str s => pyStrip s == ""
  | Value.dict entries => entries.isEmpty

/-- final_compilation_agent (final_compilation/handlers.py): if any
required component is missing or blank, return the state with
current_stage set to failed and an error naming the missing components
(no exception is raised — the function is total); otherwise assemble the
final_proposal dictionary from the section keys and set current_stage to
completed. -/
def final_compilation_agent (state : ProposalState) : ProposalState :=
  let missing_components :=
    (required_components.filter (fun p => isBlank (getD state p.1 (Value.str "")))).map Prod.snd
  if !missing_components.isEmpty then
    setKey (setKey state "current_stage" (Value.str "failed")) "error"
      (Value.str ("Missing required components: " ++ String.intercalate ", " missing_components))
  else
    setKey
      (setKey state "final_proposal"
        (Value.dict
          [("title", getD state "proposal_title" (Value.str "Project Proposal")),
           ("initial_idea", getD state "initial_idea" (Value.str "")),
           ("similar_products", getD state "similar_products" (Value.str "")),
           ("refined_scope", getD state "refined_scope" (Value.str "")),
           ("business_analysis", getD state "business_analysis" (Value.str "")),
           ("technical_spec", getD state "technical_spec" (Value.str "")),
           ("project_plan", getD state "project_plan" (Value.str "")),
           ("resource_plan", getD state "resource_plan" (Value.str ""))]))
      "current_stage" (Value.str "completed")

end FinalCompilation

/-- A concrete state whose resource_plan is an empty string — the
claim's failing-compilation example; all other required components are
non-blank. -/
def c6FailState : ProposalState :=
  [("refined_scope", Value.str "scope text"),
   ("business_analysis", Value.str "analysis text"),
   ("technical_spec", Value.str "spec text"),
   ("project_plan", Value.str "plan text"),
   ("resource_plan", Value.str "")]

/-- A concrete state in which every required component is non-blank. -/
def c6OkState : ProposalState :=
  [("refined_scope", Value.str "scope text"),
   ("business_analysis", Value.str "analysis text"),
   ("technical_spec", Value.str "spec text"),
   ("project_plan", Value.str "plan text"),
   ("resource_plan", Value.str "resource text")]

/-! General lemmas about the embedded operations. -/

theorem bfsLoop_closed (table : List (String × List String))
    (affected queue : List String) :
    (∀ k ds, (k, ds) ∈ table → ∀ a ∈ affected, a ∈ ds → k ∈ affected ∨ a ∈ queue) →
    ∀ k ds, (k, ds) ∈ table → ∀ a ∈ bfsLoop table affected queue, a ∈ ds →
      k ∈ bfsLoop table affected queue := by
  induction affected, queue using bfsLoop.induct table with
  | case1 affected =>
    intro hinv k ds hkds a ha hads
    simp only [bfsLoop] at ha ⊢
    rcases hinv k ds hkds a ha hads with h | h
    · exact h
    · exact absurd h (List.not_mem_nil a)
  | case2 affected current rest ih =>
    intro hinv k ds hkds a ha hads
    simp only [bfsLoop] at ha ⊢
    apply ih ?_ k ds hkds a ha hads
    intro k' ds' hk'ds' b hb hbds'
    rcases List.mem_append.mp hb with hb | hb
    · rcases hinv k' ds' hk'ds' b hb hbds' with h | h
      · exact Or.inl (List.mem_append.mpr (Or.inl h))
      · rcases List.mem_cons.mp h with h | h
        · subst h
          by_cases hk'aff : k' ∈ affected
          · exact Or.inl (List.mem_append.mpr (Or.inl hk'aff))
          · left
            apply List.mem_append.mpr
            right
            simp only [List.mem_map]
            refine ⟨(k', ds'), ?_, rfl⟩
            simp only [List.mem_filter]
            exact ⟨hk'ds', by simp [hbds', hk'aff]⟩
        · exact Or.inr (List.mem_append.mpr (Or.inl h))
    · exact Or.inr (List.mem_append.mpr (Or.inr hb))


theorem getValue?_setKey_self (st : ProposalState) (k : String) (v : Value) :
    getValue? (setKey st k v) k = some v := by
  unfold setKey
  by_cases hany : st.any (fun p => p.1 == k) = true
  · rw [if_pos hany]
    induction st with
    | nil => simp at hany
    | cons p ps ih =>
      by_cases hp : (p.1 == k) = true
      · rw [List.map_cons, if_pos hp]
        simp [getValue?, List.find?]
      · have hp' : (p.1 == k) = false := Bool.eq_false_iff.mpr hp
        have hany' : ps.any (fun p => p.1 == k) = true := by
          simp only [List.any_cons, hp', Bool.false_or] at hany
          exact hany
        rw [List.map_cons, if_neg hp]
        simp only [getValue?, List.find?, hp'] at ih ⊢
        exact ih hany'
  · rw [if_neg hany]
    induction st with
    | nil => simp [getValue?, List.find?]
    | cons p ps ih =>
      have hp' : (p.1 == k) = false := by
        cases hv : p.1 == k with
        | false => rfl
        | true => exact absurd (by simp [List.any_cons, hv]) hany
      have hany' : ¬(ps.any (fun p => p.1 == k) = true) := by
        intro hc
        exact hany (by simp [List.any_cons, hc])
      rw [List.cons_append]
      simp only [getValue?, List.find?, hp'] at ih ⊢
      exact ih hany'

theorem getValue?_setKey_other (st : ProposalState) (k k' : String) (v : Value)
    (h : k' ≠ k) :
    getValue? (setKey st k v) k' = getValue? st k' := by
  have hkk : (k == k') = false := by
    cases hv : k == k' with
    | false => rfl
    | true => exact absurd (eq_of_beq hv).symm h
  unfold setKey
  by_cases hany : st.any (fun p => p.1 == k) = true
  · rw [if_pos hany]
    clear hany
    induction st with
    | nil => rfl
    | cons p ps ih =>
      by_cases hp : (p.1 == k) = true
      · have hpk' : (p.1 == k') = false := by
          rw [eq_of_beq hp]
          exact hkk
        rw [List.map_cons, if_pos hp]
        simp only [getValue?, List.find?, hkk, hpk'] at ih ⊢
        exact ih
      · rw [List.map_cons, if_neg hp]
        by_cases hp' : (p.1 == k') = true
        · simp [getValue?, List.find?, hp']
        · have hp'' : (p.1 == k') = false := Bool.eq_false_iff.mpr hp'
          simp only [getValue?, List.find?, hp''] at ih ⊢
          exact ih
  · rw [if_neg hany]
    clear hany
    induction st with
    | nil => simp [getValue?, List.find?, hkk]
    | cons p ps ih =>
      by_cases hp' : (p.1 == k') = true
      · rw [List.cons_append]
        simp [getValue?, List.find?, hp']
      · have hp'' : (p.1 == k') = false := Bool.eq_false_iff.mpr hp'
        rw [List.cons_append]
        simp only [getValue?, List.find?, hp''] at ih ⊢
        exact ih

theorem getD_setKey_self (st : ProposalState) (k : String) (v d : Value) :
    getD (setKey st k v) k d = v := by
  rw [getD, getValue?_setKey_self]
  rfl

theorem getD_setKey_other (st : ProposalState) (k k' : String) (v d : Value)
    (h : k' ≠ k) :
    getD (setKey st k v) k' d = getD st k' d := by
  rw [getD, getValue?_setKey_other st k k' v h]
  rfl

/-! Claim theorems. -/

/-- C1: an edit request naming exactly one task is never expanded — both
EditPipeline._expand_with_dependencies and
MasterAgent.get_sub_agents_to_rerun under action edit return the
singleton request unchanged, for every dependency table and regardless
of whether a full generation has completed (the master-agent path never
consults the session, and the edit-pipeline path returns before reading
either the table or the generation flag). -/
theorem c1_single_task_edit_unexpanded (dependencies : List (String × List String))
    (is_proposal_generated : Bool) (agent : String) :
    EditPipeline.expand_with_dependencies dependencies is_proposal_generated [agent] = [agent] ∧
    MasterAgent.get_sub_agents_to_rerun "edit" [agent] = [agent] := by
  constructor
  · rfl
  · rfl

/-- C2 counterexample: EditPipeline.execute dispatches the whole
expanded task subset as a single concurrent batch, which differs from
the ascending dependency levels that _group_by_dependency_level would
compute for the same subset — the claimed level-by-level execution does
not happen. -/
theorem c2_counterexample :
    EditPipeline.execute_batches true ["business_analyst", "project_manager"] []
        = some [["business_analyst", "project_manager", "resource_allocation"]] ∧
    EditPipeline.group_by_dependency_level true false
        ["business_analyst", "project_manager", "resource_allocation"]
        = [["business_analyst"], ["project_manager"], ["resource_allocation"]] ∧
    ([["business_analyst", "project_manager", "resource_allocation"]] : List (List String))
        ≠ [["business_analyst"], ["project_manager"], ["resource_allocation"]] := by
  refine ⟨?_, by decide, by decide⟩
  simp [EditPipeline.execute_batches, EditPipeline.validate_prerequisites,
    EditPipeline.expand_with_dependencies, EditPipeline.get_agent_dependencies,
    EditPipeline.agent_order, bfsLoop, List.filter]

/-- C2 (amended): the helper _group_by_dependency_level does compute the
claimed ascending dependency levels, but EditPipeline.execute never
calls it — every non-empty edit request is dispatched as exactly one
concurrent batch holding the whole expanded subset. -/
theorem c2_single_batch_dispatch (is_proposal_generated : Bool) (agent : String)
    (agents : List String) :
    EditPipeline.execute_batches is_proposal_generated (agent :: agents) []
        = some [EditPipeline.expand_with_dependencies EditPipeline.get_agent_dependencies
                  is_proposal_generated (agent :: agents)] ∧
    EditPipeline.group_by_dependency_level true false
        ["business_analyst", "project_manager", "resource_allocation"]
        = [["business_analyst"], ["project_manager"], ["resource_allocation"]] := by
  refine ⟨?_, by decide⟩
  simp [EditPipeline.execute_batches, EditPipeline.validate_prerequisites]

/-- C3: for every edit request naming at least two tasks on an
already-generated document, the closure expansion (in both the edit
pipeline and the master agent) returns a duplicate-free list, ordered by
the canonical declaration order, that is closed under "is a dependent of
an included task" with respect to the respective dependency table. -/
theorem c3_multi_task_expansion_closed (a b : String) (rest : List String) :
    (EditPipeline.expand_with_dependencies EditPipeline.get_agent_dependencies true (a :: b :: rest)).Nodup ∧
    List.Sublist (EditPipeline.expand_with_dependencies EditPipeline.get_agent_dependencies true (a :: b :: rest)) EditPipeline.agent_order ∧
    (∀ k ds, (k, ds) ∈ EditPipeline.get_agent_dependencies →
      (∃ x ∈ EditPipeline.expand_with_dependencies EditPipeline.get_agent_dependencies true (a :: b :: rest), x ∈ ds) →
      k ∈ EditPipeline.expand_with_dependencies EditPipeline.get_agent_dependencies true (a :: b :: rest)) ∧
    (MasterAgent.expand_with_dependencies (a :: b :: rest)).Nodup ∧
    List.Sublist (MasterAgent.expand_with_dependencies (a :: b :: rest)) MasterAgent.agent_order ∧
    (∀ k ds, (k, ds) ∈ MasterAgent.agent_dependencies →
      (∃ x ∈ MasterAgent.expand_with_dependencies (a :: b :: rest), x ∈ ds) →
      k ∈ MasterAgent.expand_with_dependencies (a :: b :: rest)) := by
  have hexp : EditPipeline.expand_with_dependencies EditPipeline.get_agent_dependencies true (a :: b :: rest)
      = EditPipeline.agent_order.filter
          (fun x => decide (x ∈ bfsLoop EditPipeline.get_agent_dependencies (a :: b :: rest) (a :: b :: rest))) := rfl
  have hexpm : MasterAgent.expand_with_dependencies (a :: b :: rest)
      = MasterAgent.agent_order.filter
          (fun x => decide (x ∈ bfsLoop MasterAgent.agent_dependencies (a :: b :: rest) (a :: b :: rest))) := rfl
  refine ⟨?_, ?_, ?_, ?_, ?_, ?_⟩
  · rw [hexp]
    exact (List.filter_sublist _).nodup (by decide)
  · rw [hexp]
    exact List.filter_sublist _
  · intro k ds hkds hex
    rw [hexp] at hex ⊢
    obtain ⟨x, hxmem, hxds⟩ := hex
    have hxres : x ∈ bfsLoop EditPipeline.get_agent_dependencies (a :: b :: rest) (a :: b :: rest) := by
      simpa using (List.mem_filter.mp hxmem).2
    have hk := bfsLoop_closed EditPipeline.get_agent_dependencies (a :: b :: rest) (a :: b :: rest)
      (fun _ _ _ y hy _ => Or.inr hy) k ds hkds x hxres hxds
    have hkorder : k ∈ EditPipeline.agent_order := by
      simp only [EditPipeline.get_agent_dependencies, List.mem_cons, List.not_mem_nil,
        or_false, Prod.mk.injEq] at hkds
      rcases hkds with ⟨hk1, -⟩ | ⟨hk1, -⟩ | ⟨hk1, -⟩ | ⟨hk1, -⟩ | ⟨hk1, -⟩ <;> subst hk1 <;> decide
    exact List.mem_filter.mpr ⟨hkorder, by simpa using hk⟩
  · rw [hexpm]
    exact (List.filter_sublist _).nodup (by decide)
  · rw [hexpm]
    exact List.filter_sublist _
  · intro k ds hkds hex
    rw [hexpm] at hex ⊢
    obtain ⟨x, hxmem, hxds⟩ := hex
    have hxres : x ∈ bfsLoop MasterAgent.agent_dependencies (a :: b :: rest) (a :: b :: rest) := by
      simpa using (List.mem_filter.mp hxmem).2
    have hk := bfsLoop_closed MasterAgent.agent_dependencies (a :: b :: rest) (a :: b :: rest)
      (fun _ _ _ y hy _ => Or.inr hy) k ds hkds x hxres hxds
    have hkorder : k ∈ MasterAgent.agent_order := by
      simp only [MasterAgent.agent_dependencies, List.mem_cons, List.not_mem_nil,
        or_false, Prod.mk.injEq] at hkds
      rcases hkds with ⟨hk1, -⟩ | ⟨hk1, -⟩ | ⟨hk1, -⟩ | ⟨hk1, -⟩ | ⟨hk1, -⟩ <;> subst hk1 <;> decide
    exact List.mem_filter.mpr ⟨hkorder, by simpa using hk⟩

/-- C4 counterexample: for the requested set {business_analyst} under an
edit action, the closure expansion of the edit pipeline (and of
get_sub_agents_to_rerun) returns [business_analyst] unchanged — the
single-task override — not the claimed four-element dependent chain. -/
theorem c4_counterexample :
    EditPipeline.expand_with_dependencies EditPipeline.get_agent_dependencies true ["business_analyst"]
        = ["business_analyst"] ∧
    MasterAgent.get_sub_agents_to_rerun "edit" ["business_analyst"] = ["business_analyst"] ∧
    (["business_analyst"] : List String)
        ≠ ["business_analyst", "technical_architect", "project_manager", "resource_allocation"] := by
  exact ⟨rfl, rfl, by decide⟩

/-- C4 (amended): the master agent's raw dependency-expansion helper —
which has no single-task override and whose table declares
technical_architect, project_manager and resource_allocation downstream
of business_analyst — does return the four tasks in that order, and the
generate_proposal path of get_sub_agents_to_rerun reaches it; the edit
pipeline's expansion returns the singleton unchanged (C1). -/
theorem c4_master_expansion_of_business_analyst :
    MasterAgent.expand_with_dependencies ["business_analyst"]
        = ["business_analyst", "technical_architect", "project_manager", "resource_allocation"] ∧
    MasterAgent.get_sub_agents_to_rerun "generate_proposal" ["business_analyst"]
        = ["business_analyst", "technical_architect", "project_manager", "resource_allocation"] := by
  constructor
  · simp [MasterAgent.expand_with_dependencies, MasterAgent.agent_dependencies,
      MasterAgent.agent_order, bfsLoop, List.filter]
  · simp [MasterAgent.get_sub_agents_to_rerun, MasterAgent.expand_with_dependencies,
      MasterAgent.agent_dependencies, MasterAgent.agent_order, bfsLoop, List.filter]

/-- C8 counterexample: the source's conversion table also contains the
plural aliases, so the unit "weeks" — which is not in the claim's
four-entry table and should therefore be kept as-is per the claim —
is in fact divided by 40: 80 per "weeks" becomes 2 per hour, while the
claim's own rule (spec_convert_rate) keeps it at 80. -/
theorem c8_counterexample :
    MasterAgent.convert_rate (MasterAgent.RateInfo.withUnit 80 "weeks") = 2 ∧
    MasterAgent.spec_convert_rate (MasterAgent.RateInfo.withUnit 80 "weeks") = 80 ∧
    (2 : ℚ) ≠ 80 := by
  refine ⟨?_, rfl, by norm_num⟩
  have h : MasterAgent.convert_rate (MasterAgent.RateInfo.withUnit 80 "weeks") = (80 : ℚ) / 40 := rfl
  rw [h]
  norm_num

/-- C8 (amended): rate normalization divides by the hours-per-unit
factors hour 1, day 8, week 40, month 160, where the unit is lowercased
and stripped first and plural forms are aliases of the same factors; a
unit outside this extended table and a bare numeric rate are kept as
given. All the claim's worked examples hold. -/
theorem c8_rate_normalization :
    (∀ v : ℚ, MasterAgent.convert_rate (MasterAgent.RateInfo.bare v) = v) ∧
    (∀ v : ℚ, MasterAgent.convert_rate (MasterAgent.RateInfo.withUnit v "hour") = v) ∧
    (∀ v : ℚ, MasterAgent.convert_rate (MasterAgent.RateInfo.withUnit v "day") = v / 8) ∧
    (∀ v : ℚ, MasterAgent.convert_rate (MasterAgent.RateInfo.withUnit v "week") = v / 40) ∧
    (∀ v : ℚ, MasterAgent.convert_rate (MasterAgent.RateInfo.withUnit v "month") = v / 160) ∧
    (∀ v : ℚ, MasterAgent.convert_rate (MasterAgent.RateInfo.withUnit v "weeks") = v / 40) ∧
    MasterAgent.convert_rate (MasterAgent.RateInfo.withUnit 100 "week") = 5 / 2 ∧
    MasterAgent.convert_rate (MasterAgent.RateInfo.withUnit 10 "day") = 5 / 4 ∧
    MasterAgent.convert_rate (MasterAgent.RateInfo.withUnit 50 "month") = 5 / 16 ∧
    MasterAgent.convert_rate (MasterAgent.RateInfo.bare 40) = 40 ∧
    MasterAgent.convert_rate (MasterAgent.RateInfo.withUnit 80 "fortnight") = 80 := by
  refine ⟨fun v => rfl, fun v => ?_, fun v => rfl, fun v => rfl, fun v => rfl, fun v => rfl,
    ?_, ?_, ?_, rfl, rfl⟩
  · have h : MasterAgent.convert_rate (MasterAgent.RateInfo.withUnit v "hour") = v / 1 := rfl
    rw [h]
    exact div_one v
  · have h : MasterAgent.convert_rate (MasterAgent.RateInfo.withUnit 100 "week") = (100 : ℚ) / 40 := rfl
    rw [h]
    norm_num
  · have h : MasterAgent.convert_rate (MasterAgent.RateInfo.withUnit 10 "day") = (10 : ℚ) / 8 := rfl
    rw [h]
    norm_num
  · have h : MasterAgent.convert_rate (MasterAgent.RateInfo.withUnit 50 "month") = (50 : ℚ) / 160 := rfl
    rw [h]
    norm_num

/-- C9: evaluation of the code at the claim's failing input.
FullProposalPipeline inherits BasePipeline.validate_prerequisites, which
accepts every state — including the empty state with no initial idea —
so the "Initial idea is required" check is dead code and all three
groups are dispatched anyway; only the edit pipeline's validation can
fail, exactly on an empty task list. -/
theorem c9_full_validation_vacuous :
    (∀ state : ProposalState, FullProposalPipeline.validate_prerequisites state = true) ∧
    FullProposalPipeline.validate_prerequisites [] = true ∧
    FullProposalPipeline.execute_groups none ≠ [] ∧
    (∀ (agents_to_update : List String) (state : ProposalState),
      EditPipeline.validate_prerequisites agents_to_update state = false ↔ agents_to_update = []) := by
  refine ⟨fun _ => rfl, rfl, by decide, ?_⟩
  intro agents state
  cases agents <;> simp [EditPipeline.validate_prerequisites]

/-- Auxiliary: when some required component is blank, the list of
missing component names is non-empty. -/
theorem final_compilation_missing_ne (st : ProposalState)
    (hex : ∃ p ∈ FinalCompilation.required_components,
      FinalCompilation.isBlank (getD st p.1 (Value.str "")) = true) :
    ((FinalCompilation.required_components.filter
        (fun p => FinalCompilation.isBlank (getD st p.1 (Value.str "")))).map Prod.snd).isEmpty = false := by
  obtain ⟨p, hp, hblank⟩ := hex
  rw [List.isEmpty_eq_false]
  intro hnil
  have hmemf : p ∈ FinalCompilation.required_components.filter
      (fun q => FinalCompilation.isBlank (getD st q.1 (Value.str ""))) :=
    List.mem_filter.mpr ⟨hp, hblank⟩
  have hmemm := List.mem_map_of_mem Prod.snd hmemf
  rw [hnil] at hmemm
  exact List.not_mem_nil _ hmemm

/-- Auxiliary: on a state with a blank required component the compile
task takes the failure branch. -/
theorem final_compilation_agent_fail_eq (st : ProposalState)
    (hex : ∃ p ∈ FinalCompilation.required_components,
      FinalCompilation.isBlank (getD st p.1 (Value.str "")) = true) :
    FinalCompilation.final_compilation_agent st =
      setKey (setKey st "current_stage" (Value.str "failed")) "error"
        (Value.str ("Missing required components: " ++ String.intercalate ", "
          ((FinalCompilation.required_components.filter
            (fun p => FinalCompilation.isBlank (getD st p.1 (Value.str "")))).map Prod.snd))) := by
  have hne := final_compilation_missing_ne st hex
  simp only [FinalCompilation.final_compilation_agent, hne, Bool.not_false, if_true]

/-- Auxiliary: on a state with no blank required component the compile
task takes the success branch. -/
theorem final_compilation_agent_success_eq (st : ProposalState)
    (hall : ∀ p ∈ FinalCompilation.required_components,
      FinalCompilation.isBlank (getD st p.1 (Value.str "")) = false) :
    FinalCompilation.final_compilation_agent st =
      setKey
        (setKey st "final_proposal"
          (Value.dict
            [("title", getD st "proposal_title" (Value.str "Project Proposal")),
             ("initial_idea", getD st "initial_idea" (Value.str "")),
             ("similar_products", getD st "similar_products" (Value.str "")),
             ("refined_scope", getD st "refined_scope" (Value.str "")),
             ("business_analysis", getD st "business_analysis" (Value.str "")),
             ("technical_spec", getD st "technical_spec" (Value.str "")),
             ("project_plan", getD st "project_plan" (Value.str "")),
             ("resource_plan", getD st "resource_plan" (Value.str ""))]))
        "current_stage" (Value.str "completed") := by
  have hfe : (FinalCompilation.required_components.filter
      (fun p => FinalCompilation.isBlank (getD st p.1 (Value.str "")))) = [] := by
    rw [List.filter_eq_nil_iff]
    intro p hp
    simp [hall p hp]
  simp only [FinalCompilation.final_compilation_agent, hfe, List.map_nil, List.isEmpty_nil,
    Bool.not_true, Bool.false_eq_true, if_false]

/-- C6: the compile task never raises — on a state with a blank or
missing required component it returns the state with terminal stage
failed and an error naming exactly the blank components, and on a state
with all required components non-blank it returns terminal stage
completed and a final_proposal dictionary containing all the listed
keys. -/
theorem c6_compile_validation (st : ProposalState) :
    ((∃ p ∈ FinalCompilation.required_components,
        FinalCompilation.isBlank (getD st p.1 (Value.str "")) = true) →
      getD (FinalCompilation.final_compilation_agent st) "current_stage" (Value.str "") = Value.str "failed" ∧
      getD (FinalCompilation.final_compilation_agent st) "error" (Value.str "") =
        Value.str ("Missing required components: " ++ String.intercalate ", "
          ((FinalCompilation.required_components.filter
            (fun p => FinalCompilation.isBlank (getD st p.1 (Value.str "")))).map Prod.snd))) ∧
    ((∀ p ∈ FinalCompilation.required_components,
        FinalCompilation.isBlank (getD st p.1 (Value.str "")) = false) →
      getD (FinalCompilation.final_compilation_agent st) "current_stage" (Value.str "") = Value.str "completed" ∧
      ∃ entries, getD (FinalCompilation.final_compilation_agent st) "final_proposal" (Value.str "") = Value.dict entries ∧
        ∀ k ∈ ["title", "initial_idea", "similar_products", "refined_scope", "business_analysis",
               "technical_spec", "project_plan", "resource_plan"], k ∈ entries.map Prod.fst) := by
  constructor
  · intro hex
    rw [final_compilation_agent_fail_eq st hex]
    constructor
    · rw [getD_setKey_other _ "error" "current_stage" _ _ (by decide), getD_setKey_self]
    · rw [getD_setKey_self]
  · intro hall
    rw [final_compilation_agent_success_eq st hall]
    refine ⟨?_, ?_⟩
    · rw [getD_setKey_self]
    · refine ⟨[("title", getD st "proposal_title" (Value.str "Project Proposal")),
        ("initial_idea", getD st "initial_idea" (Value.str "")),
        ("similar_products", getD st "similar_products" (Value.str "")),
        ("refined_scope", getD st "refined_scope" (Value.str "")),
        ("business_analysis", getD st "business_analysis" (Value.str "")),
        ("technical_spec", getD st "technical_spec" (Value.str "")),
        ("project_plan", getD st "project_plan" (Value.str "")),
        ("resource_plan", getD st "resource_plan" (Value.str ""))], ?_, ?_⟩
      · rw [getD_setKey_other _ "current_stage" "final_proposal" _ _ (by decide),
          getD_setKey_self]
      · intro k hk
        simp only [List.map_cons, List.map_nil]
        simpa using hk

/-- C6 witness: on the concrete state whose resource_plan is the empty
string the compile task fails, and on the fully-populated concrete
state it completes. -/
theorem c6_witness :
    (∃ p ∈ FinalCompilation.required_components,
      FinalCompilation.isBlank (getD c6FailState p.1 (Value.str "")) = true) ∧
    getD (FinalCompilation.final_compilation_agent c6FailState) "current_stage" (Value.str "")
        = Value.str "failed" ∧
    (∀ p ∈ FinalCompilation.required_components,
      FinalCompilation.isBlank (getD c6OkState p.1 (Value.str "")) = false) ∧
    getD (FinalCompilation.final_compilation_agent c6OkState) "current_stage" (Value.str "")
        = Value.str "completed" :=
  ⟨by decide, ((c6_compile_validation c6FailState).1 (by decide)).1, by decide,
   ((c6_compile_validation c6OkState).2 (by decide)).1⟩

/-- C10: the compile task mutates at most the keys current_stage, error
and final_proposal — every other key keeps its input binding (including
absence) — and on the failure branch final_proposal too is left
untouched, so generated section content survives a failed compilation. -/
theorem c10_compile_frame (st : ProposalState) (k : String) :
    (k ≠ "current_stage" → k ≠ "error" → k ≠ "final_proposal" →
      getValue? (FinalCompilation.final_compilation_agent st) k = getValue? st k) ∧
    ((∃ p ∈ FinalCompilation.required_components,
        FinalCompilation.isBlank (getD st p.1 (Value.str "")) = true) →
      getValue? (FinalCompilation.final_compilation_agent st) "final_proposal"
        = getValue? st "final_proposal") := by
  constructor
  · intro h1 h2 h3
    cases hb : ((FinalCompilation.required_components.filter
        (fun p => FinalCompilation.isBlank (getD st p.1 (Value.str "")))).map Prod.snd).isEmpty with
    | false =>
      have hex : ∃ p ∈ FinalCompilation.required_components,
          FinalCompilation.isBlank (getD st p.1 (Value.str "")) = true := by
        rw [List.isEmpty_eq_false] at hb
        obtain ⟨x, hx⟩ := List.exists_mem_of_ne_nil _ hb
        obtain ⟨p, hpf, -⟩ := List.mem_map.mp hx
        exact ⟨p, (List.mem_filter.mp hpf).1, by simpa using (List.mem_filter.mp hpf).2⟩
      rw [final_compilation_agent_fail_eq st hex]
      rw [getValue?_setKey_other _ "error" k _ h2, getValue?_setKey_other _ "current_stage" k _ h1]
    | true =>
      have hall : ∀ p ∈ FinalCompilation.required_components,
          FinalCompilation.isBlank (getD st p.1 (Value.str "")) = false := by
        rw [List.isEmpty_iff, List.map_eq_nil_iff, List.filter_eq_nil_iff] at hb
        intro p hp
        simpa using hb p hp
      rw [final_compilation_agent_success_eq st hall]
      rw [getValue?_setKey_other _ "current_stage" k _ h1,
        getValue?_setKey_other _ "final_proposal" k _ h3]
  · intro hex
    rw [final_compilation_agent_fail_eq st hex]
    rw [getValue?_setKey_other _ "error" "final_proposal" _ (by decide),
      getValue?_setKey_other _ "current_stage" "final_proposal" _ (by decide)]

/-- C10 witness: at the concrete failing state, the refined_scope
binding and the (absent) final_proposal binding are unchanged by a
failed compilation. -/
theorem c10_witness :
    getValue? (FinalCompilation.final_compilation_agent c6FailState) "refined_scope"
        = getValue? c6FailState "refined_scope" ∧
    getValue? (FinalCompilation.final_compilation_agent c6FailState) "final_proposal"
        = getValue? c6FailState "final_proposal" :=
  ⟨(c10_compile_frame c6FailState "refined_scope").1 (by decide) (by decide) (by decide),
   (c10_compile_frame c6FailState "refined_scope").2 (by decide)⟩

/-- C5: the static level plan of the full pipeline is exactly the three
ordered levels [title], [the five content tasks], [final_compilation];
for every non-empty enabled-task filter the executed groups are those
three levels with each task outside the enabled set removed and any
level emptied by the filter dropped entirely; an absent or empty
(falsy) filter leaves the three static levels intact. -/
theorem c5_static_level_planning (e : String) (enabled : List String) :
    FullProposalPipeline.get_parallel_groups
        = [["title"],
           ["scope_refinement", "business_analyst", "technical_architect",
            "project_manager", "resource_allocation"],
           ["final_compilation"]] ∧
    FullProposalPipeline.execute_groups none = FullProposalPipeline.get_parallel_groups ∧
    FullProposalPipeline.execute_groups (some []) = FullProposalPipeline.get_parallel_groups ∧
    FullProposalPipeline.execute_groups (some (e :: enabled))
        = (if "title" ∈ e :: enabled then [["title"]] else [])
          ++ (if (["scope_refinement", "business_analyst", "technical_architect",
                  "project_manager", "resource_allocation"].filter
                    (fun a => decide (a ∈ e :: enabled))).isEmpty = true then []
              else [["scope_refinement", "business_analyst", "technical_architect",
                     "project_manager", "resource_allocation"].filter
                      (fun a => decide (a ∈ e :: enabled))])
          ++ (if "final_compilation" ∈ e :: enabled then [["final_compilation"]] else []) := by
  refine ⟨rfl, by decide, by decide, ?_⟩
  have hseqdef : FullProposalPipeline.filtered_sequence (some (e :: enabled))
      = FullProposalPipeline.get_agent_sequence.filter (fun a => decide (a ∈ e :: enabled)) := rfl
  have hmem : ∀ a ∈ FullProposalPipeline.get_agent_sequence,
      decide (a ∈ FullProposalPipeline.filtered_sequence (some (e :: enabled)))
        = decide (a ∈ e :: enabled) := by
    intro a ha
    rw [hseqdef]
    by_cases hae : a ∈ e :: enabled
    · have hmf : a ∈ List.filter (fun a => decide (a ∈ e :: enabled))
          FullProposalPipeline.get_agent_sequence :=
        List.mem_filter.mpr ⟨ha, by simpa using hae⟩
      rw [decide_eq_true hmf, decide_eq_true hae]
    · have hmf : a ∉ List.filter (fun a => decide (a ∈ e :: enabled))
          FullProposalPipeline.get_agent_sequence :=
        fun hc => hae (by simpa using (List.mem_filter.mp hc).2)
      rw [decide_eq_false hmf, decide_eq_false hae]
  have hsub1 : ∀ a ∈ (["title"] : List String), a ∈ FullProposalPipeline.get_agent_sequence := by
    decide
  have hsub2 : ∀ a ∈ (["scope_refinement", "business_analyst", "technical_architect",
      "project_manager", "resource_allocation"] : List String),
      a ∈ FullProposalPipeline.get_agent_sequence := by
    decide
  have hsub3 : ∀ a ∈ (["final_compilation"] : List String),
      a ∈ FullProposalPipeline.get_agent_sequence := by
    decide
  have h1 := List.filter_congr (fun a ha => hmem a (hsub1 a ha))
  have h2 := List.filter_congr (fun a ha => hmem a (hsub2 a ha))
  have h3 := List.filter_congr (fun a ha => hmem a (hsub3 a ha))
  have hgroups : FullProposalPipeline.execute_groups (some (e :: enabled))
      = ([["title"].filter (fun a => decide (a ∈ e :: enabled)),
          ["scope_refinement", "business_analyst", "technical_architect",
           "project_manager", "resource_allocation"].filter (fun a => decide (a ∈ e :: enabled)),
          ["final_compilation"].filter (fun a => decide (a ∈ e :: enabled))]).filter
          (fun g => !g.isEmpty) := by
    unfold FullProposalPipeline.execute_groups FullProposalPipeline.get_parallel_groups
    rw [List.map_cons, List.map_cons, List.map_cons, List.map_nil, h1, h2, h3]
  have htf : (["title"] : List String).filter (fun a => decide (a ∈ e :: enabled))
      = if "title" ∈ e :: enabled then ["title"] else [] := by
    by_cases ht : "title" ∈ e :: enabled
    · rw [List.filter_cons, if_pos (decide_eq_true ht), if_pos ht]
      rfl
    · rw [List.filter_cons, if_neg (fun hc => ht (of_decide_eq_true hc)), if_neg ht]
      rfl
  have hff : (["final_compilation"] : List String).filter (fun a => decide (a ∈ e :: enabled))
      = if "final_compilation" ∈ e :: enabled then ["final_compilation"] else [] := by
    by_cases hf : "final_compilation" ∈ e :: enabled
    · rw [List.filter_cons, if_pos (decide_eq_true hf), if_pos hf]
      rfl
    · rw [List.filter_cons, if_neg (fun hc => hf (of_decide_eq_true hc)), if_neg hf]
      rfl
  rw [hgroups, htf, hff]
  set mid := ["scope_refinement", "business_analyst", "technical_architect",
      "project_manager", "resource_allocation"].filter (fun a => decide (a ∈ e :: enabled))
    with hmiddef
  by_cases ht : "title" ∈ e :: enabled <;>
    by_cases hf : "final_compilation" ∈ e :: enabled <;>
    cases hmid : mid.isEmpty <;>
    simp [List.filter_cons, ht, hf, hmid]

/-- Auxiliary: the appended agent is a member of the result of
append_if_missing. -/
theorem mem_append_if_missing_self (agents : List String) (agent : String) :
    agent ∈ MasterAgent.append_if_missing agents agent := by
  unfold MasterAgent.append_if_missing
  by_cases h : agent ∈ agents
  · rw [if_neg (by simp [h])]
    exact h
  · rw [if_pos (by simp [h])]
    simp

/-- Auxiliary: append_if_missing only adds elements. -/
theorem mem_append_if_missing_of_mem (agents : List String) (x agent : String)
    (h : x ∈ agents) :
    x ∈ MasterAgent.append_if_missing agents agent := by
  unfold MasterAgent.append_if_missing
  by_cases hm : agent ∈ agents
  · rw [if_neg (by simp [hm])]
    exact h
  · rw [if_pos (by simp [hm])]
    exact List.mem_append.mpr (Or.inl h)

/-- Auxiliary: the result of append_if_missing is never empty. -/
theorem isEmpty_append_if_missing_false (agents : List String) (agent : String) :
    (MasterAgent.append_if_missing agents agent).isEmpty = false := by
  rw [List.isEmpty_eq_false]
  exact List.ne_nil_of_mem (mem_append_if_missing_self agents agent)

/-- C7 counterexample: with extracted settings carrying only rates and a
decision whose task list already contains resource_allocation, the
injection leaves the action untouched — here it stays conversation
instead of being forced to edit as the claim requires. -/
theorem c7_counterexample :
    MasterAgent.hasRates (MasterAgent.ExtractedSettings.mk
        (some [("developer", MasterAgent.RateInfo.bare 100)]) none none) = true ∧
    (MasterAgent.inject_constraint_tasks
        (MasterAgent.ExtractedSettings.mk (some [("developer", MasterAgent.RateInfo.bare 100)]) none none)
        (MasterAgent.RoutingDecision.mk "conversation" ["resource_allocation"])).action
      = "conversation" ∧
    ("conversation" : String) ≠ "edit" :=
  ⟨rfl, rfl, by decide⟩

/-- C7 (amended): a non-empty extracted budget always forces
project_manager and resource_allocation into the task set and the
action to edit; non-empty extracted rates (with no budget or timeline
change) force resource_allocation into the task set, but the action is
forced to edit only when resource_allocation was absent — when it was
already present the decision is returned unchanged. -/
theorem c7_constraint_task_injection (e : MasterAgent.ExtractedSettings)
    (d : MasterAgent.RoutingDecision) :
    (MasterAgent.hasBudget e = true →
      "project_manager" ∈ (MasterAgent.inject_constraint_tasks e d).agents_to_rerun ∧
      "resource_allocation" ∈ (MasterAgent.inject_constraint_tasks e d).agents_to_rerun ∧
      (MasterAgent.inject_constraint_tasks e d).action = "edit") ∧
    (MasterAgent.hasRates e = true → MasterAgent.hasBudget e = false →
      MasterAgent.hasTimeline e = false →
      "resource_allocation" ∈ (MasterAgent.inject_constraint_tasks e d).agents_to_rerun ∧
      ("resource_allocation" ∉ d.agents_to_rerun →
        (MasterAgent.inject_constraint_tasks e d).action = "edit") ∧
      ("resource_allocation" ∈ d.agents_to_rerun →
        MasterAgent.inject_constraint_tasks e d = d)) := by
  constructor
  · intro hb
    have hne : MasterAgent.nonEmptyDict e = true := by
      unfold MasterAgent.hasBudget at hb
      unfold MasterAgent.nonEmptyDict
      cases heb : e.budget with
      | none => rw [heb] at hb; simp at hb
      | some b => simp [heb]
    have hbt : (MasterAgent.hasBudget e || MasterAgent.hasTimeline e) = true := by
      rw [hb, Bool.true_or]
    have hiq : MasterAgent.inject_constraint_tasks e d
        = MasterAgent.RoutingDecision.mk "edit"
            (MasterAgent.append_if_missing
              (MasterAgent.append_if_missing
                (if MasterAgent.hasRates e && !(decide ("resource_allocation" ∈ d.agents_to_rerun)) then
                  MasterAgent.RoutingDecision.mk "edit" (d.agents_to_rerun ++ ["resource_allocation"])
                else d).agents_to_rerun
                "project_manager")
              "resource_allocation") := by
      unfold MasterAgent.inject_constraint_tasks
      rw [if_pos hne]
      simp [hb, mem_append_if_missing_self, isEmpty_append_if_missing_false]
    rw [hiq]
    refine ⟨?_, ?_, rfl⟩
    · exact mem_append_if_missing_of_mem _ _ _ (mem_append_if_missing_self _ _)
    · exact mem_append_if_missing_self _ _
  · intro hr hb ht
    have hne : MasterAgent.nonEmptyDict e = true := by
      unfold MasterAgent.hasRates at hr
      unfold MasterAgent.nonEmptyDict
      cases her : e.rates with
      | none => rw [her] at hr; simp at hr
      | some r => simp [her]
    have hbt : (MasterAgent.hasBudget e || MasterAgent.hasTimeline e) = false := by
      rw [hb, ht]
      rfl
    unfold MasterAgent.inject_constraint_tasks
    rw [if_pos hne]
    simp only [hbt, Bool.false_eq_true, if_false]
    by_cases hra : "resource_allocation" ∈ d.agents_to_rerun
    · have hc : (MasterAgent.hasRates e && !(decide ("resource_allocation" ∈ d.agents_to_rerun)))
          = false := by
        simp [hra]
      simp only [hc, Bool.false_eq_true, if_false]
      exact ⟨hra, fun hc' => absurd hra hc', fun _ => by trivial⟩
    · have hc : (MasterAgent.hasRates e && !(decide ("resource_allocation" ∈ d.agents_to_rerun)))
          = true := by
        simp [hr, hra]
      simp only [hc, if_true]
      refine ⟨by simp [List.mem_append], fun _ => by trivial, fun hc' => absurd hc' hra⟩

/-- C7 witness: a budget-only change on a conversation decision with an
empty task list yields both tasks and the edit action; a rates-only
change with resource_allocation absent yields the task and the edit
action. -/
theorem c7_witness :
    "project_manager" ∈ (MasterAgent.inject_constraint_tasks
        (MasterAgent.ExtractedSettings.mk none (some "2500") none)
        (MasterAgent.RoutingDecision.mk "conversation" [])).agents_to_rerun ∧
    "resource_allocation" ∈ (MasterAgent.inject_constraint_tasks
        (MasterAgent.ExtractedSettings.mk none (some "2500") none)
        (MasterAgent.RoutingDecision.mk "conversation" [])).agents_to_rerun ∧
    (MasterAgent.inject_constraint_tasks
        (MasterAgent.ExtractedSettings.mk none (some "2500") none)
        (MasterAgent.RoutingDecision.mk "conversation" [])).action = "edit" ∧
    "resource_allocation" ∈ (MasterAgent.inject_constraint_tasks
        (MasterAgent.ExtractedSettings.mk (some [("developer", MasterAgent.RateInfo.bare 100)]) none none)
        (MasterAgent.RoutingDecision.mk "conversation" [])).agents_to_rerun ∧
    (MasterAgent.inject_constraint_tasks
        (MasterAgent.ExtractedSettings.mk (some [("developer", MasterAgent.RateInfo.bare 100)]) none none)
        (MasterAgent.RoutingDecision.mk "conversation" [])).action = "edit" := by
  have hbudget := (c7_constraint_task_injection
    (MasterAgent.ExtractedSettings.mk none (some "2500") none)
    (MasterAgent.RoutingDecision.mk "conversation" [])).1 (by decide)
  have hrates := (c7_constraint_task_injection
    (MasterAgent.ExtractedSettings.mk (some [("developer", MasterAgent.RateInfo.bare 100)]) none none)
    (MasterAgent.RoutingDecision.mk "conversation" [])).2 (by decide) (by decide) (by decide)
  exact ⟨hbudget.1, hbudget.2.1, hbudget.2.2, hrates.1, hrates.2.1 (by decide)⟩

/-- C3 witness: the expansion of the two-task request
[business_analyst, technical_architect] on a generated document is
duplicate-free and contains the dependent project_manager. -/
theorem c3_witness :
    (EditPipeline.expand_with_dependencies EditPipeline.get_agent_dependencies true
        ["business_analyst", "technical_architect"]).Nodup ∧
    "project_manager" ∈ EditPipeline.expand_with_dependencies EditPipeline.get_agent_dependencies true
        ["business_analyst", "technical_architect"] :=
  ⟨(c3_multi_task_expansion_closed "business_analyst" "technical_architect" []).1,
   (c3_multi_task_expansion_closed "business_analyst" "technical_architect" []).2.2.1
     "project_manager" ["scope_refinement", "business_analyst", "technical_architect"]
     (by decide)
     ⟨"business_analyst",
      by simp [EditPipeline.expand_with_dependencies, EditPipeline.get_agent_dependencies,
        EditPipeline.agent_order, bfsLoop, List.filter],
      by decide⟩⟩
